import Mathlib

/-!
Verification model of the `what` asset-loading library.

The development shallow-embeds the three core components of the library:

* `LfuCache` — the bounded-size eviction cache of `src/lfu.rs`, instantiated
  as the library does at byte-vector items (`Vec<u8>`, modelled as `List Nat`)
  whose `size` is the length.  A call that panics in Rust is modelled as the
  result `none`.
* the container codec of `src/lib.rs` — `write_asset` / `write_texture` /
  `write_texture_array` on the writing side and the header-decoding part of
  `load_asset` on the reading side.  The `serde_json` header serialization is
  an external crate; it is modelled by an explicit injective self-delimiting
  encoding `encHeader` / `decHeader` together with the round-trip property the
  crate provides, and the reader is parameterized by the decoder wherever a
  property does not depend on the codec.
* the identifier registry and the path index of `src/lib.rs` and
  `src/utils.rs` — `GuidGenerator.generate` with its rejection sampling
  (randomness is passed explicitly as a stream of draws), and the
  interning and auxiliary-blob bookkeeping of `load_file`.

`usize` arithmetic is modelled on `Nat` with explicit wrap-around at `2 ^ 64`
(release-build semantics) where the source performs unchecked arithmetic.
-/

namespace WhatV

set_option maxRecDepth 40000

/-- Wrap-around addition of two `usize` values (release-build semantics of
`a + b` on a 64-bit target). -/
def usizeAdd (a b : Nat) : Nat := (a + b) % 2 ^ 64

/-- Wrap-around subtraction of two `usize` values (release-build semantics of
`a - b` on a 64-bit target). -/
def usizeSub (a b : Nat) : Nat := (a + (2 ^ 64 - b % 2 ^ 64)) % 2 ^ 64

theorem usizeAdd_eq_of_lt {a b : Nat} (h : a + b < 2 ^ 64) : usizeAdd a b = a + b := by
  unfold usizeAdd
  omega

theorem usizeSub_eq_of_le {a b : Nat} (ha : a < 2 ^ 64) (h : b ≤ a) :
    usizeSub a b = a - b := by
  have hb : b % 2 ^ 64 = b := Nat.mod_eq_of_lt (lt_of_le_of_lt h ha)
  simp only [usizeSub, hb]
  omega

/-! ### Association-list model of `std::collections::HashMap`

The hash maps of the source (`key_val` of the cache, `paths` of the loader)
are modelled as association lists with unique keys; `insertKV` replaces the
binding of an existing key in place, mirroring `HashMap::insert`. -/

/-- Lookup in an association list, modelling `HashMap::get`. -/
def lookupKV {κ α : Type} [DecidableEq κ] : List (κ × α) → κ → Option α
  | [], _ => none
  | (k, v) :: rest, key => if key = k then some v else lookupKV rest key

/-- Insert-or-replace in an association list, modelling `HashMap::insert`. -/
def insertKV {κ α : Type} [DecidableEq κ] : List (κ × α) → κ → α → List (κ × α)
  | [], key, v => [(key, v)]
  | (k, w) :: rest, key, v =>
      if key = k then (k, v) :: rest else (k, w) :: insertKV rest key v

/-- Removal from an association list, modelling `HashMap::remove`. -/
def removeKV {κ α : Type} [DecidableEq κ] : List (κ × α) → κ → List (κ × α)
  | [], _ => []
  | (k, w) :: rest, key => if key = k then rest else (k, w) :: removeKV rest key

theorem lookupKV_insertKV_self {κ α : Type} [DecidableEq κ]
    (l : List (κ × α)) (k : κ) (v : α) : lookupKV (insertKV l k v) k = some v := by
  induction l with
  | nil => simp [insertKV, lookupKV]
  | cons hd tl ih =>
      obtain ⟨k0, v0⟩ := hd
      by_cases hk : k = k0
      · simp [insertKV, lookupKV, hk]
      · simp [insertKV, lookupKV, hk, ih]

theorem lookupKV_insertKV_ne {κ α : Type} [DecidableEq κ]
    (l : List (κ × α)) (k k' : κ) (v : α) (h : k' ≠ k) :
    lookupKV (insertKV l k v) k' = lookupKV l k' := by
  induction l with
  | nil => simp [insertKV, lookupKV, h]
  | cons hd tl ih =>
      obtain ⟨k0, v0⟩ := hd
      by_cases hk : k = k0
      · subst hk
        simp [insertKV, lookupKV, h]
      · by_cases hk' : k' = k0
        · simp [insertKV, lookupKV, hk, hk']
        · simp [insertKV, lookupKV, hk, hk', ih]

theorem lookupKV_mem {κ α : Type} [DecidableEq κ]
    {l : List (κ × α)} {k : κ} {v : α} (h : lookupKV l k = some v) : (k, v) ∈ l := by
  induction l with
  | nil => simp [lookupKV] at h
  | cons hd tl ih =>
      obtain ⟨k0, v0⟩ := hd
      by_cases hk : k = k0
      · subst hk
        simp [lookupKV] at h
        simp [h]
      · simp [lookupKV, hk] at h
        exact List.mem_cons_of_mem _ (ih h)

/-! ### The eviction cache of `src/lfu.rs`

`CacheEntry`, `LfuCache`, `insert`, `get` and `shrink_to_fit` are translated
field for field from `src/lfu.rs`.  The item type is fixed to byte vectors
(`List Nat`) with `size` = length, the instantiation the library uses
(`impl ItemSize for Vec<u8>`).  `BinaryHeap` is modelled as the list of
pushed records, with `popMax` returning a maximal record under the source's
comparator (priority first, then frequency); among records the comparator
does not distinguish, `BinaryHeap::pop` leaves the choice unspecified and the
model takes the first maximal one. -/

/-- One priority-queue record, from `struct CacheEntry<Key>` in `src/lfu.rs`. -/
structure CacheEntry (Key : Type) where
  key : Key
  frequency : Nat
  priority : Nat
deriving DecidableEq, Repr

/-- Fixed per-record bookkeeping overhead: the value of
`std::mem::size_of::<CacheEntry<Key>>()` for the library's `Key = Guid`
(a 4-byte id plus two 8-byte counters, padded to 24 bytes on 64-bit
targets). -/
def entryOverhead : Nat := 24

/-- The source comparator of `impl Ord for CacheEntry`: compare by priority
and then by frequency. -/
def entryLe {Key : Type} (a b : CacheEntry Key) : Bool :=
  Nat.blt a.priority b.priority ||
    (Nat.beq a.priority b.priority && Nat.ble a.frequency b.frequency)

/-- Pop a maximal record from the heap; `none` on an empty heap (where the
source's `.unwrap()` would panic). -/
def popMax {Key : Type} : List (CacheEntry Key) → Option (CacheEntry Key × List (CacheEntry Key))
  | [] => none
  | e :: rest =>
      match popMax rest with
      | none => some (e, [])
      | some (m, rest') => if entryLe m e then some (e, rest) else some (m, e :: rest')

theorem popMax_cons_eq {Key : Type} (a : CacheEntry Key) (rest : List (CacheEntry Key)) :
    popMax (a :: rest) =
      match popMax rest with
      | none => some (a, [])
      | some (m, rest') => if entryLe m a then some (a, rest) else some (m, a :: rest') := rfl

theorem popMax_cons_isSome {Key : Type} (a : CacheEntry Key) (rest : List (CacheEntry Key)) :
    (popMax (a :: rest)).isSome := by
  rw [popMax_cons_eq]
  cases hp : popMax rest with
  | none => simp
  | some p =>
      obtain ⟨m, r⟩ := p
      by_cases hle : entryLe m a <;> simp [hle]

theorem popMax_length {Key : Type} :
    ∀ (l : List (CacheEntry Key)) (e : CacheEntry Key) (r : List (CacheEntry Key)),
      popMax l = some (e, r) → r.length + 1 = l.length := by
  intro l
  induction l with
  | nil => intro e r h; simp [popMax] at h
  | cons a rest ih =>
      intro e r h
      rw [popMax_cons_eq] at h
      cases hp : popMax rest with
      | none =>
          rw [hp] at h
          cases rest with
          | nil =>
              simp at h
              obtain ⟨he, hr⟩ := h
              subst hr; simp
          | cons b tl => have := popMax_cons_isSome b tl; rw [hp] at this; simp at this
      | some p =>
          obtain ⟨m, rest'⟩ := p
          rw [hp] at h
          have hlen := ih m rest' hp
          by_cases hle : entryLe m a
          · simp [hle] at h
            obtain ⟨he, hr⟩ := h
            subst hr; simp
          · simp [hle] at h
            obtain ⟨he, hr⟩ := h
            subst hr
            simp [List.length_cons]
            omega

/-- The cache state, from `struct LfuCache<Key, Item>` in `src/lfu.rs`,
instantiated at `Item = Vec<u8>`. -/
structure LfuCache (Key : Type) where
  size_in_bytes : Nat
  max_size_in_bytes : Nat
  key_val : List (Key × (List Nat × Nat × Nat))
  heap : List (CacheEntry Key)
deriving DecidableEq

/-- `LfuCache::new(capacity)`. -/
def LfuCache.new (Key : Type) (capacity : Nat) : LfuCache Key :=
  { size_in_bytes := 0, max_size_in_bytes := capacity, key_val := [], heap := [] }

/-- One iteration of the `while` body of `LfuCache::shrink_to_fit`: pop a
record (panic on an empty heap), subtract the fixed overhead from the running
total, index the authoritative table at the record's key (panic when the key
is absent, as `self.key_val[&entry.key]` does), then either discard the
record as stale or evict the entry. -/
def shrinkStep {Key : Type} [DecidableEq Key] (c : LfuCache Key) : Option (LfuCache Key) :=
  match popMax c.heap with
  | none => none
  | some (entry, rest) =>
      let size1 := usizeSub c.size_in_bytes entryOverhead
      match lookupKV c.key_val entry.key with
      | none => none
      | some (item, freq, prio) =>
          if entry.frequency ≠ freq ∨ entry.priority ≠ prio then
            some { c with heap := rest, size_in_bytes := size1 }
          else
            some { c with heap := rest,
                          size_in_bytes := usizeSub size1 item.length,
                          key_val := removeKV c.key_val entry.key }

/-- Fuel-indexed form of the `while size_in_bytes > max_size_in_bytes` loop of
`shrink_to_fit`.  Every iteration pops exactly one heap record, so fuel equal
to the heap length plus one is always sufficient (`shrinkLoopFuel_congr`);
the fuel-exhaustion branch is unreachable from `shrink_to_fit`. -/
def shrinkLoopFuel {Key : Type} [DecidableEq Key] : Nat → LfuCache Key → Option (LfuCache Key)
  | 0, _ => none
  | fuel + 1, c =>
      if c.size_in_bytes ≤ c.max_size_in_bytes then some c
      else
        match shrinkStep c with
        | none => none
        | some c2 => shrinkLoopFuel fuel c2

set_option maxRecDepth 4000 in
theorem shrinkStep_heap_length {Key : Type} [DecidableEq Key]
    {c c2 : LfuCache Key} (h : shrinkStep c = some c2) :
    c2.heap.length + 1 = c.heap.length := by
  cases hp : popMax c.heap with
  | none => simp [shrinkStep, hp] at h
  | some p =>
      obtain ⟨entry, rest⟩ := p
      have hlen := popMax_length c.heap entry rest hp
      cases hl : lookupKV c.key_val entry.key with
      | none => simp [shrinkStep, hp, hl] at h
      | some t =>
          obtain ⟨item, freq, prio⟩ := t
          simp only [shrinkStep, hp, hl] at h
          split at h <;> (rw [Option.some_inj] at h; subst h; exact hlen)

theorem shrinkLoopFuel_congr {Key : Type} [DecidableEq Key] :
    ∀ (f g : Nat) (c : LfuCache Key), c.heap.length < f → c.heap.length < g →
      shrinkLoopFuel f c = shrinkLoopFuel g c := by
  intro f
  induction f with
  | zero => intro g c hf; omega
  | succ f ih =>
      intro g c hf hg
      cases g with
      | zero => omega
      | succ g =>
          simp only [shrinkLoopFuel]
          by_cases hle : c.size_in_bytes ≤ c.max_size_in_bytes
          · simp [hle]
          · simp only [if_neg hle]
            cases hs : shrinkStep c with
            | none => rfl
            | some c2 =>
                have hlen := shrinkStep_heap_length hs
                exact ih g c2 (by omega) (by omega)

/-- `LfuCache::shrink_to_fit(max_size)`: set the budget and run the eviction
loop; `none` models a panic inside the loop. -/
def LfuCache.shrink_to_fit {Key : Type} [DecidableEq Key]
    (c : LfuCache Key) (maxSize : Nat) : Option (LfuCache Key) :=
  let c2 : LfuCache Key := { c with max_size_in_bytes := maxSize }
  shrinkLoopFuel (c2.heap.length + 1) c2

/-- `LfuCache::insert(key, value, priority)`: charge the item's size plus the
fixed overhead, panic (`none`) when that alone exceeds the budget, run the
eviction loop, then store the entry with frequency 0 and push its heap
record. -/
def LfuCache.insert {Key : Type} [DecidableEq Key]
    (c : LfuCache Key) (key : Key) (value : List Nat) (priority : Nat) :
    Option (LfuCache Key) :=
  if c.max_size_in_bytes < value.length + entryOverhead then none
  else
    match LfuCache.shrink_to_fit
        { c with size_in_bytes := usizeAdd c.size_in_bytes (value.length + entryOverhead) }
        c.max_size_in_bytes with
    | none => none
    | some c2 =>
        some { c2 with
                key_val := insertKV c2.key_val key (value, 0, priority),
                heap := ⟨key, 0, priority⟩ :: c2.heap }

/-- `LfuCache::get(key)`: on a hit, bump the stored frequency with
`checked_add` semantics (no bump and no new record at `usize::MAX`) and push
a fresh heap record; return the item.  Never panics. -/
def LfuCache.get {Key : Type} [DecidableEq Key]
    (c : LfuCache Key) (key : Key) : Option (List Nat) × LfuCache Key :=
  match lookupKV c.key_val key with
  | none => (none, c)
  | some (item, freq, prio) =>
      if freq + 1 < 2 ^ 64 then
        (some item,
          { c with key_val := insertKV c.key_val key (item, freq + 1, prio),
                   heap := ⟨key, freq + 1, prio⟩ :: c.heap })
      else (some item, c)

/-- Operations a caller can perform on the cache, for stating properties of
arbitrary call sequences. -/
inductive CacheOp (Key : Type) where
  | insert (key : Key) (value : List Nat) (priority : Nat)
  | get (key : Key)
  | shrink (maxSize : Nat)
deriving DecidableEq, Repr

/-- Run one cache operation; `none` models a panic. -/
def runOp {Key : Type} [DecidableEq Key] (c : LfuCache Key) : CacheOp Key → Option (LfuCache Key)
  | .insert k v p => c.insert k v p
  | .get k => some (c.get k).2
  | .shrink m => c.shrink_to_fit m

/-- Run a sequence of cache operations, stopping at the first panic. -/
def runOps {Key : Type} [DecidableEq Key] (c : LfuCache Key) : List (CacheOp Key) → Option (LfuCache Key)
  | [] => some c
  | op :: ops => (runOp c op).bind (fun c2 => runOps c2 ops)

theorem shrinkLoopFuel_some_le {Key : Type} [DecidableEq Key] :
    ∀ (f : Nat) (c c2 : LfuCache Key), shrinkLoopFuel f c = some c2 →
      c2.size_in_bytes ≤ c2.max_size_in_bytes := by
  intro f
  induction f with
  | zero => intro c c2 h; simp [shrinkLoopFuel] at h
  | succ f ih =>
      intro c c2 h
      by_cases hle : c.size_in_bytes ≤ c.max_size_in_bytes
      · simp only [shrinkLoopFuel, if_pos hle] at h
        rw [Option.some_inj] at h
        subst h
        exact hle
      · simp only [shrinkLoopFuel, if_neg hle] at h
        cases hs : shrinkStep c with
        | none => rw [hs] at h; simp at h
        | some c3 => rw [hs] at h; exact ih c3 c2 h

theorem shrinkLoopFuel_of_le {Key : Type} [DecidableEq Key] (f : Nat) (c : LfuCache Key)
    (h : c.size_in_bytes ≤ c.max_size_in_bytes) : shrinkLoopFuel (f + 1) c = some c := by
  simp [shrinkLoopFuel, h]

theorem shrink_to_fit_some_le {Key : Type} [DecidableEq Key]
    {c c2 : LfuCache Key} {m : Nat} (h : c.shrink_to_fit m = some c2) :
    c2.size_in_bytes ≤ c2.max_size_in_bytes :=
  shrinkLoopFuel_some_le _ _ _ h

theorem shrink_to_fit_of_le {Key : Type} [DecidableEq Key] (c : LfuCache Key) (m : Nat)
    (h : c.size_in_bytes ≤ m) :
    c.shrink_to_fit m = some { c with max_size_in_bytes := m } :=
  shrinkLoopFuel_of_le _ _ h

theorem insert_eq_some_of_fits {c : LfuCache Nat} {k : Nat} {v : List Nat} {p : Nat}
    (hfit : c.size_in_bytes + (v.length + entryOverhead) ≤ c.max_size_in_bytes)
    (hlt : c.size_in_bytes + (v.length + entryOverhead) < 2 ^ 64) :
    c.insert k v p = some
      { c with size_in_bytes := c.size_in_bytes + (v.length + entryOverhead),
               key_val := insertKV c.key_val k (v, 0, p),
               heap := ⟨k, 0, p⟩ :: c.heap } := by
  have hnl : ¬ c.max_size_in_bytes < v.length + entryOverhead := by omega
  have hadd : usizeAdd c.size_in_bytes (v.length + entryOverhead)
      = c.size_in_bytes + (v.length + entryOverhead) := usizeAdd_eq_of_lt hlt
  unfold LfuCache.insert
  rw [if_neg hnl]
  rw [show LfuCache.shrink_to_fit
        { c with size_in_bytes := usizeAdd c.size_in_bytes (v.length + entryOverhead) }
        c.max_size_in_bytes
      = some { c with size_in_bytes := usizeAdd c.size_in_bytes (v.length + entryOverhead) } from
    shrink_to_fit_of_le _ _ (by simp only [hadd]; exact hfit)]
  simp only [hadd]

theorem insert_some_le {Key : Type} [DecidableEq Key]
    {c c2 : LfuCache Key} {k : Key} {v : List Nat} {p : Nat}
    (h : c.insert k v p = some c2) :
    c2.size_in_bytes ≤ c2.max_size_in_bytes := by
  unfold LfuCache.insert at h
  split at h
  · simp at h
  · cases hs : LfuCache.shrink_to_fit
        { c with size_in_bytes := usizeAdd c.size_in_bytes (v.length + entryOverhead) }
        c.max_size_in_bytes with
    | none => rw [hs] at h; simp at h
    | some c3 =>
        have h3 := shrink_to_fit_some_le hs
        rw [hs] at h
        rw [Option.some_inj] at h
        subst h
        exact h3

theorem get_snd_fields {Key : Type} [DecidableEq Key] (c : LfuCache Key) (k : Key) :
    ((c.get k).2).size_in_bytes = c.size_in_bytes ∧
      ((c.get k).2).max_size_in_bytes = c.max_size_in_bytes := by
  unfold LfuCache.get
  cases lookupKV c.key_val k with
  | none => exact ⟨rfl, rfl⟩
  | some t =>
      obtain ⟨item, freq, prio⟩ := t
      dsimp only
      split <;> exact ⟨rfl, rfl⟩

theorem runOp_le {Key : Type} [DecidableEq Key]
    {c c2 : LfuCache Key} {op : CacheOp Key}
    (hc : c.size_in_bytes ≤ c.max_size_in_bytes) (h : runOp c op = some c2) :
    c2.size_in_bytes ≤ c2.max_size_in_bytes := by
  cases op with
  | insert k v p => exact insert_some_le h
  | get k =>
      simp only [runOp] at h
      rw [Option.some_inj] at h
      subst h
      rw [(get_snd_fields c k).1, (get_snd_fields c k).2]
      exact hc
  | shrink m => exact shrink_to_fit_some_le h

theorem runOps_le {Key : Type} [DecidableEq Key] :
    ∀ (ops : List (CacheOp Key)) (c c2 : LfuCache Key),
      c.size_in_bytes ≤ c.max_size_in_bytes → runOps c ops = some c2 →
      c2.size_in_bytes ≤ c2.max_size_in_bytes := by
  intro ops
  induction ops with
  | nil =>
      intro c c2 hc h
      simp only [runOps] at h
      rw [Option.some_inj] at h
      subst h
      exact hc
  | cons op tl ih =>
      intro c c2 hc h
      simp only [runOps] at h
      cases ho : runOp c op with
      | none => rw [ho] at h; simp at h
      | some c3 =>
          rw [ho] at h
          exact ih c3 c2 (runOp_le hc ho) h

/-- C3: after any sequence of `insert`, `get` and `shrink_to_fit` calls that
all return normally (no panic), the cache's tracked running byte total
`size_in_bytes` never exceeds the currently configured budget
`max_size_in_bytes`. -/
theorem cache_budget_invariant (cap : Nat) (ops : List (CacheOp Nat)) (c : LfuCache Nat)
    (h : runOps (LfuCache.new Nat cap) ops = some c) :
    c.size_in_bytes ≤ c.max_size_in_bytes :=
  runOps_le ops _ c (by simp [LfuCache.new]) h

/-- Concrete operation sequence exercising `cache_budget_invariant`. -/
def c3Ops : List (CacheOp Nat) := [.insert 1 [0, 0] 0, .get 1, .shrink 10]

/-- The state reached by `c3Ops` from a fresh cache of capacity 30. -/
def c3State : LfuCache Nat := (runOps (LfuCache.new Nat 30) c3Ops).getD (LfuCache.new Nat 0)

/-- C3 witness: the budget invariant evaluated on a concrete run. -/
theorem cache_budget_invariant_witness :
    c3State.size_in_bytes ≤ c3State.max_size_in_bytes :=
  cache_budget_invariant 30 c3Ops c3State (by rfl)

/-- A cache state whose single heap record is stale: the authoritative table
holds frequency 5 for key 1 while the record holds frequency 3 (superseded by
later accesses), and the total exceeds the budget so the shrink loop runs. -/
def c1StaleCache : LfuCache Nat :=
  { size_in_bytes := 100, max_size_in_bytes := 20,
    key_val := [(1, ([0, 0, 0, 0, 0], 5, 7))], heap := [⟨1, 3, 7⟩] }

/-- The state after one shrink iteration on `c1StaleCache`. -/
def c1StaleRes : LfuCache Nat := (shrinkStep c1StaleCache).getD (LfuCache.new Nat 0)

/-- The claim's scenario run to completion: insert two keys, `get` key 1
twice, then `shrink_to_fit`.  The shrink evicts key 1 and then pops one of
key 1's now-ownerless stale records, which panics. -/
def c1PanicOps : List (CacheOp Nat) :=
  [.insert 1 (List.replicate 30 0) 5, .insert 2 (List.replicate 30 0) 1,
   .get 1, .get 1, .shrink 20]

/-- C1 counterexample: a popped stale record is NOT discarded without effect
on the running total — the loop body subtracts the fixed per-record overhead
before the staleness check, so the total drops from 100 to 76 while the
table is untouched; and the claim's own scenario (repeated `get(k)` then
`shrink_to_fit`) can panic outright when a stale record whose key was
already evicted is popped. -/
theorem stale_pop_claim_counterexample :
    popMax c1StaleCache.heap = some (⟨1, 3, 7⟩, []) ∧
    lookupKV c1StaleCache.key_val 1 = some ([0, 0, 0, 0, 0], 5, 7) ∧
    (3 ≠ 5 ∨ 7 ≠ 7) ∧
    shrinkStep c1StaleCache = some c1StaleRes ∧
    c1StaleRes.key_val = c1StaleCache.key_val ∧
    c1StaleRes.size_in_bytes ≠ c1StaleCache.size_in_bytes ∧
    runOps (LfuCache.new Nat 200) c1PanicOps = none := by
  decide

/-- C1 (amended): a popped record whose (frequency, priority) no longer
matches the authoritative table is discarded without modifying the table —
so an entry is never removed twice — but the running total is still
decremented by the fixed per-record overhead for every pop, stale or not;
and popping a record whose key is no longer in the table panics (the source
indexes the map with `self.key_val[&entry.key]`). -/
theorem stale_pop_amended :
    (∀ (c : LfuCache Nat) (entry : CacheEntry Nat) (rest : List (CacheEntry Nat))
        (item : List Nat) (freq prio : Nat),
        popMax c.heap = some (entry, rest) →
        lookupKV c.key_val entry.key = some (item, freq, prio) →
        entry.frequency ≠ freq ∨ entry.priority ≠ prio →
        shrinkStep c = some { c with
          heap := rest,
          size_in_bytes := usizeSub c.size_in_bytes entryOverhead }) ∧
    (∀ (c : LfuCache Nat) (entry : CacheEntry Nat) (rest : List (CacheEntry Nat)),
        popMax c.heap = some (entry, rest) →
        lookupKV c.key_val entry.key = none →
        shrinkStep c = none) := by
  constructor
  · intro c entry rest item freq prio hp hl hcond
    simp only [shrinkStep, hp, hl]
    rw [if_pos hcond]
  · intro c entry rest hp hl
    simp [shrinkStep, hp, hl]

/-- A cache state whose single heap record refers to a key absent from the
authoritative table. -/
def c1AbsentCache : LfuCache Nat :=
  { size_in_bytes := 100, max_size_in_bytes := 20, key_val := [], heap := [⟨2, 0, 0⟩] }

/-- C1 witness: both amended branches evaluated on concrete states. -/
theorem stale_pop_amended_witness :
    shrinkStep c1StaleCache =
      some { c1StaleCache with
             heap := [],
             size_in_bytes := usizeSub c1StaleCache.size_in_bytes entryOverhead } ∧
    shrinkStep c1AbsentCache = none :=
  ⟨stale_pop_amended.1 c1StaleCache ⟨1, 3, 7⟩ [] [0, 0, 0, 0, 0] 5 7
      (by decide) (by decide) (by decide),
   stale_pop_amended.2 c1AbsentCache ⟨2, 0, 0⟩ [] (by decide) (by decide)⟩

/-- Operation sequence reaching a state whose heap still holds a record for
an evicted key: key 1 is evicted by `shrink 60`, but its frequency-0 record
remains in the heap. -/
def c7Ops : List (CacheOp Nat) :=
  [.insert 1 (List.replicate 30 0) 5, .get 1, .insert 2 (List.replicate 30 0) 1, .shrink 60]

/-- The state reached by `c7Ops` from a fresh cache of capacity 200. -/
def c7State : LfuCache Nat := (runOps (LfuCache.new Nat 200) c7Ops).getD (LfuCache.new Nat 0)

/-- C7 counterexample: an item of size 10 + overhead 24 = 34 is at or under
the configured budget 60, yet `insert` aborts: the eviction pass it triggers
pops the leftover record of the already-evicted key 1 and panics indexing the
authoritative table. -/
theorem insert_under_budget_counterexample :
    runOps (LfuCache.new Nat 200) c7Ops = some c7State ∧
    c7State.max_size_in_bytes = 60 ∧
    (List.replicate 10 0).length + entryOverhead ≤ c7State.max_size_in_bytes ∧
    c7State.insert 3 (List.replicate 10 0) 1 = none := by
  decide

/-- C7 (amended): inserting an item whose size plus the fixed overhead alone
exceeds the budget always aborts (`panic!`, modelled `none`); an insert at or
under the budget passes that capacity check, and completes whenever the
current total plus the new charge already fits the budget (no eviction
needed) — but when eviction is required the insert may still abort, as
`insert_under_budget_counterexample` shows. -/
theorem insert_capacity_amended :
    (∀ (c : LfuCache Nat) (k : Nat) (v : List Nat) (p : Nat),
        c.max_size_in_bytes < v.length + entryOverhead → c.insert k v p = none) ∧
    (∀ (c : LfuCache Nat) (k : Nat) (v : List Nat) (p : Nat),
        c.size_in_bytes + (v.length + entryOverhead) ≤ c.max_size_in_bytes →
        c.size_in_bytes + (v.length + entryOverhead) < 2 ^ 64 →
        ∃ c2, c.insert k v p = some c2) := by
  constructor
  · intro c k v p h
    unfold LfuCache.insert
    rw [if_pos h]
  · intro c k v p hfit hlt
    exact ⟨_, insert_eq_some_of_fits hfit hlt⟩

/-- C7 witness: both amended branches evaluated on concrete inputs. -/
theorem insert_capacity_amended_witness :
    (LfuCache.new Nat 10).insert 1 [] 0 = none ∧
    ∃ c2, (LfuCache.new Nat 100).insert 1 [0] 0 = some c2 :=
  ⟨insert_capacity_amended.1 (LfuCache.new Nat 10) 1 [] 0 (by decide),
   insert_capacity_amended.2 (LfuCache.new Nat 100) 1 [0] 0 (by decide) (by decide)⟩

/-- The state after inserting 40 bytes under key 1 into a fresh cache of
capacity 100: total 64 of 100. -/
def c9Pre : LfuCache Nat :=
  (runOps (LfuCache.new Nat 100) [.insert 1 (List.replicate 40 0) 0]).getD (LfuCache.new Nat 0)

/-- The state after re-inserting key 1 with a new 40-byte item. -/
def c9Post : LfuCache Nat :=
  (c9Pre.insert 1 (List.replicate 40 1) 0).getD (LfuCache.new Nat 0)

/-- C9 counterexample: when the re-insert of an existing key triggers the
eviction pass and that pass evicts the key's old entry, the old item's size
IS subtracted from the running total (final total 64, not 128) — refuting
the claim's "the replaced item's size is never subtracted" in full
generality. -/
theorem reinsert_total_counterexample :
    lookupKV c9Pre.key_val 1 = some (List.replicate 40 0, 0, 0) ∧
    c9Pre.insert 1 (List.replicate 40 1) 0 = some c9Post ∧
    c9Post.size_in_bytes ≠
      c9Pre.size_in_bytes + ((List.replicate 40 1).length + entryOverhead) := by
  decide

/-- C9 (amended): re-inserting a key `k` already present replaces the stored
entry with `(v2, 0, p2)`, and — provided the insert triggers no eviction,
in particular whenever the current total plus the new charge fits the
budget — the running total grows by the full new charge while the replaced
item's earlier charge is never subtracted, so the total over-counts the
cache's actual contents. -/
theorem reinsert_retains_charge (c : LfuCache Nat) (k : Nat) (old v2 : List Nat)
    (f p p2 : Nat)
    (hk : lookupKV c.key_val k = some (old, f, p))
    (hfit : c.size_in_bytes + (v2.length + entryOverhead) ≤ c.max_size_in_bytes)
    (hlt : c.size_in_bytes + (v2.length + entryOverhead) < 2 ^ 64) :
    ∃ c2, c.insert k v2 p2 = some c2 ∧
      lookupKV c2.key_val k = some (v2, 0, p2) ∧
      c2.size_in_bytes = c.size_in_bytes + (v2.length + entryOverhead) := by
  refine ⟨_, insert_eq_some_of_fits hfit hlt, ?_, rfl⟩
  exact lookupKV_insertKV_self _ _ _

/-- Concrete state for the C9 witness: key 1 present with a 10-byte item. -/
def c9WitPre : LfuCache Nat :=
  (runOps (LfuCache.new Nat 200) [.insert 1 (List.replicate 10 0) 3]).getD (LfuCache.new Nat 0)

/-- C9 witness: the amended statement evaluated on a concrete re-insert. -/
theorem reinsert_retains_charge_witness :
    ∃ c2, c9WitPre.insert 1 [5, 5] 7 = some c2 ∧
      lookupKV c2.key_val 1 = some ([5, 5], 0, 7) ∧
      c2.size_in_bytes = c9WitPre.size_in_bytes + (([5, 5] : List Nat).length + entryOverhead) :=
  reinsert_retains_charge c9WitPre 1 (List.replicate 10 0) [5, 5] 0 3 7
    (by decide) (by decide) (by decide)

/-! ### The container codec of `src/lib.rs`

The header structures are translated field for field from `src/lib.rs`;
Rust `String` fields are modelled as their UTF-8 byte lists and the fixed
`u16`/`u32`/`u64` fields as `Nat`.  The `serde_json` text serialization of
the header is an external crate; it is modelled by the injective
self-delimiting codec `encHeader` / `decHeader` below, which shares the two
properties the development relies on: a header round-trips, and the parser
rejects trailing bytes after one complete value. -/

/-- One (key, offset) pair of a TextureArray header, from `struct
HeaderEntry`. -/
structure HeaderEntry where
  key : List Nat
  offset : Nat
deriving DecidableEq, Repr

/-- From `struct HeaderTexture`. -/
structure HeaderTexture where
  width : Nat
  height : Nat
  format : Option (List Nat)
  offset : Nat
deriving DecidableEq, Repr

/-- From `struct HeaderTextureArray`. -/
structure HeaderTextureArray where
  size : Nat
  format : Option (List Nat)
  data : List HeaderEntry
deriving DecidableEq, Repr

/-- From `struct HeaderShader`. -/
structure HeaderShader where
  offset : Nat
deriving DecidableEq, Repr

/-- From `struct HeaderGltf`. -/
structure HeaderGltf where
  offset : Nat
deriving DecidableEq, Repr

/-- From `enum HeaderType`. -/
inductive HeaderType where
  | texture (t : HeaderTexture)
  | textureArray (t : HeaderTextureArray)
  | shader (s : HeaderShader)
  | gltf (g : HeaderGltf)
deriving DecidableEq, Repr

/-- From `struct BaseHeader`. -/
structure BaseHeader where
  major : Nat
  minor : Nat
  ctype : HeaderType
deriving DecidableEq, Repr

/-- The writer's version constants `VERSION_MAJOR` / `VERSION_MINOR`. -/
def VERSION_MAJOR : Nat := 1

/-- The writer's minor version constant. -/
def VERSION_MINOR : Nat := 0

/-- From `pub struct TextureData`. -/
structure TextureData where
  width : Nat
  height : Nat
  format : Option (List Nat)
  data : List Nat
deriving DecidableEq, Repr

/-- From `pub struct TextureArrayData`. -/
structure TextureArrayData where
  size : Nat
  format : Option (List Nat)
  keys : List (List Nat)
  data : List (List Nat)
deriving DecidableEq, Repr

/-- From `pub struct ShaderData` (decoded 32-bit words as `Nat`). -/
structure ShaderData where
  data : List Nat
deriving DecidableEq, Repr

/-- From `pub enum Asset`; the Gltf variant is produced by the external
importer and appears as `LoadResult.gltfDelegated` instead. -/
inductive Asset where
  | texture (t : TextureData)
  | textureArray (t : TextureArrayData)
  | shader (s : ShaderData)
deriving DecidableEq, Repr

/-- Outcome of the container-decoding part of `load_asset`. -/
inductive LoadResult where
  | panicked
  | jsonError
  | ok (a : Asset)
  | gltfDelegated (payload : List Nat)
deriving DecidableEq, Repr

/-- The 8 little-endian bytes of a `u64`, as written by `size.to_le_bytes()`
in `write_asset`. -/
def toLE8 (n : Nat) : List Nat :=
  [n % 256, n / 256 % 256, n / 65536 % 256, n / 16777216 % 256,
   n / 4294967296 % 256, n / 1099511627776 % 256,
   n / 281474976710656 % 256, n / 72057594037927936 % 256]

/-- `u64::from_le_bytes` applied to the 8-byte length prefix in
`load_asset`. -/
def fromLE8 : List Nat → Nat
  | b0 :: b1 :: b2 :: b3 :: b4 :: b5 :: b6 :: b7 :: _ =>
      b0 + 256 * b1 + 65536 * b2 + 16777216 * b3 + 4294967296 * b4 +
        1099511627776 * b5 + 281474976710656 * b6 + 72057594037927936 * b7
  | _ => 0

theorem toLE8_length (n : Nat) : (toLE8 n).length = 8 := rfl

theorem fromLE8_toLE8 {n : Nat} (h : n < 2 ^ 64) : fromLE8 (toLE8 n) = n := by
  simp only [toLE8, fromLE8]
  omega

/-- Rust range slice `&data[a..b]`: panics (`none`) unless
`a ≤ b ≤ data.length`. -/
def sliceRange (data : List Nat) (a b : Nat) : Option (List Nat) :=
  if a ≤ b ∧ b ≤ data.length then some ((data.drop a).take (b - a)) else none

/-- Rust open slice `&data[a..]`: panics (`none`) unless `a ≤ data.length`. -/
def sliceFrom (data : List Nat) (a : Nat) : Option (List Nat) :=
  if a ≤ data.length then some (data.drop a) else none

/-- The TextureArray slicing loop of `load_asset`: blob `i` extends from its
offset to entry `i + 1`'s offset, and the last blob to the end of `data`. -/
def sliceEntries (data : List Nat) (headerEnd : Nat) :
    List HeaderEntry → Option (List (List Nat))
  | [] => some []
  | [e] => (sliceRange data (headerEnd + e.offset) data.length).map (fun b => [b])
  | e :: e2 :: rest =>
      match sliceRange data (headerEnd + e.offset) (headerEnd + e2.offset) with
      | none => none
      | some blob =>
          match sliceEntries data headerEnd (e2 :: rest) with
          | none => none
          | some blobs => some (blob :: blobs)

/-- The shader word loop: `read_u32::<LittleEndian>` until the cursor runs
out, silently dropping a trailing partial word. -/
def readWords : List Nat → List Nat
  | b0 :: b1 :: b2 :: b3 :: rest =>
      (b0 + 256 * b1 + 65536 * b2 + 16777216 * b3) :: readWords rest
  | _ => []

/-- The container-decoding part of `load_asset` (after `load_file` returned
`data`).  The header parser `dec` is a parameter standing for
`serde_json::from_slice::<BaseHeader>`.  Outcomes: `.panicked` for an
out-of-bounds slice index, `.jsonError` for a header parse failure
(`Error::JsonError`), `.gltfDelegated` when control passes to the external
`gltf` importer with the sliced payload, `.ok` for a decoded asset.

Arithmetic: the source computes `header_end = 8 + size as usize` and then
the payload start `header_end + offset as usize`, both wrapping at `2 ^ 64`
in release builds.  `header_end` is kept as the unbounded sum here: on every
input shorter than `2 ^ 64` elements (every buffer the program can hold) the
unbounded and the wrapped value classify the header slice identically — when
they differ the wrapped value is below 8 and `&data[8..header_end]` panics,
while the unbounded value exceeds the length and the model panics too — and
whenever the header slice succeeds on such input the two values coincide.
The payload-offset addition, by contrast, wraps at offsets representable in
a real header (any `u64` the header declares), so it is taken with
`usizeAdd`: an offset near `2 ^ 64` wraps the index back into range and the
payload is sliced from the wrapped position without a panic, exactly as the
release build does. -/
def loadAssetBytes (dec : List Nat → Option BaseHeader) (data : List Nat) : LoadResult :=
  if data.length < 8 then .panicked
  else if data.length < 8 + fromLE8 (data.take 8) then .panicked
  else
    match dec ((data.drop 8).take (fromLE8 (data.take 8))) with
    | none => .jsonError
    | some meta =>
        match meta.ctype with
        | .texture tm =>
            match sliceFrom data (usizeAdd (8 + fromLE8 (data.take 8)) tm.offset) with
            | none => .panicked
            | some blob => .ok (.texture ⟨tm.width, tm.height, tm.format, blob⟩)
        | .textureArray tam =>
            match sliceEntries data (8 + fromLE8 (data.take 8)) tam.data with
            | none => .panicked
            | some blobs =>
                .ok (.textureArray
                  ⟨tam.size, tam.format, tam.data.map HeaderEntry.key, blobs⟩)
        | .shader sm =>
            match sliceFrom data (usizeAdd (8 + fromLE8 (data.take 8)) sm.offset) with
            | none => .panicked
            | some blob => .ok (.shader ⟨readWords blob⟩)
        | .gltf gm =>
            match sliceFrom data (usizeAdd (8 + fromLE8 (data.take 8)) gm.offset) with
            | none => .panicked
            | some blob => .gltfDelegated blob

/-- The byte-assembly step of `write_asset`: the 8-byte little-endian length
of the serialized header, the header, then the payload (the filesystem part
of `write_asset` is not modelled). -/
def writeAssetBytes (header content : List Nat) : List Nat :=
  toLE8 header.length ++ header ++ content

/-- Unary self-delimiting number encoding used by the stand-in header
codec. -/
def encNat (n : Nat) : List Nat := List.replicate n 1 ++ [0]

/-- Decoder for `encNat`. -/
def decNat : List Nat → Option (Nat × List Nat)
  | [] => none
  | 0 :: rest => some (0, rest)
  | (_ + 1) :: rest => (decNat rest).map (fun p => (p.1 + 1, p.2))

/-- Concatenated encoding of a sequence. -/
def encSeq {α : Type} (enc : α → List Nat) : List α → List Nat
  | [] => []
  | x :: xs => enc x ++ encSeq enc xs

/-- Length-prefixed encoding of a byte string. -/
def encBytes (s : List Nat) : List Nat := encNat s.length ++ encSeq encNat s

/-- Read `k` numbers in sequence. -/
def decNats : Nat → List Nat → Option (List Nat × List Nat)
  | 0, l => some ([], l)
  | k + 1, l =>
      match decNat l with
      | none => none
      | some (n, r) =>
          match decNats k r with
          | none => none
          | some (ns, r2) => some (n :: ns, r2)

/-- Decoder for `encBytes`. -/
def decBytes (l : List Nat) : Option (List Nat × List Nat) :=
  match decNat l with
  | none => none
  | some (n, r) => decNats n r

/-- Tagged encoding of an optional byte string. -/
def encOptBytes : Option (List Nat) → List Nat
  | none => [0]
  | some s => 1 :: encBytes s

/-- Decoder for `encOptBytes`. -/
def decOptBytes : List Nat → Option (Option (List Nat) × List Nat)
  | [] => none
  | 0 :: rest => some (none, rest)
  | (_ + 1) :: rest => (decBytes rest).map (fun p => (some p.1, p.2))

/-- Encoding of one TextureArray header entry. -/
def encEntry (e : HeaderEntry) : List Nat := encBytes e.key ++ encNat e.offset

/-- Decoder for `encEntry`. -/
def decEntry (l : List Nat) : Option (HeaderEntry × List Nat) :=
  match decBytes l with
  | none => none
  | some (k, r) =>
      match decNat r with
      | none => none
      | some (off, r2) => some (⟨k, off⟩, r2)

/-- Read `k` header entries in sequence. -/
def decEntriesN : Nat → List Nat → Option (List HeaderEntry × List Nat)
  | 0, l => some ([], l)
  | k + 1, l =>
      match decEntry l with
      | none => none
      | some (e, r) =>
          match decEntriesN k r with
          | none => none
          | some (es, r2) => some (e :: es, r2)

/-- Length-prefixed encoding of the entry list. -/
def encEntries (es : List HeaderEntry) : List Nat := encNat es.length ++ encSeq encEntry es

/-- Decoder for `encEntries`. -/
def decEntries (l : List Nat) : Option (List HeaderEntry × List Nat) :=
  match decNat l with
  | none => none
  | some (n, r) => decEntriesN n r

/-- Tagged encoding of the header variant. -/
def encType : HeaderType → List Nat
  | .texture t =>
      0 :: (encNat t.width ++ encNat t.height ++ encOptBytes t.format ++ encNat t.offset)
  | .textureArray t => 1 :: (encNat t.size ++ encOptBytes t.format ++ encEntries t.data)
  | .shader s => 2 :: encNat s.offset
  | .gltf g => 3 :: encNat g.offset

/-- Decoder for `encType`. -/
def decType : List Nat → Option (HeaderType × List Nat)
  | 0 :: l =>
      match decNat l with
      | none => none
      | some (w, r1) =>
          match decNat r1 with
          | none => none
          | some (hgt, r2) =>
              match decOptBytes r2 with
              | none => none
              | some (fmt, r3) =>
                  match decNat r3 with
                  | none => none
                  | some (off, r4) => some (.texture ⟨w, hgt, fmt, off⟩, r4)
  | 1 :: l =>
      match decNat l with
      | none => none
      | some (sz, r1) =>
          match decOptBytes r1 with
          | none => none
          | some (fmt, r2) =>
              match decEntries r2 with
              | none => none
              | some (es, r3) => some (.textureArray ⟨sz, fmt, es⟩, r3)
  | 2 :: l => (decNat l).map (fun p => (.shader ⟨p.1⟩, p.2))
  | 3 :: l => (decNat l).map (fun p => (.gltf ⟨p.1⟩, p.2))
  | _ => none

/-- Stand-in for `serde_json::to_string(&BaseHeader)`: an injective
self-delimiting encoding of the header. -/
def encHeader (h : BaseHeader) : List Nat :=
  encNat h.major ++ encNat h.minor ++ encType h.ctype

/-- Stand-in for `serde_json::from_slice::<BaseHeader>` on the header slice:
parses exactly one header and rejects trailing bytes, as `serde_json`
does. -/
def decHeader (l : List Nat) : Option BaseHeader :=
  match decNat l with
  | none => none
  | some (maj, r1) =>
      match decNat r1 with
      | none => none
      | some (mnr, r2) =>
          match decType r2 with
          | none => none
          | some (ct, r3) => if r3 = [] then some ⟨maj, mnr, ct⟩ else none

/-- `write_texture`: build the Texture header (offset 0, current version
constants) and assemble the container bytes. -/
def writeTexture (t : TextureData) : List Nat :=
  writeAssetBytes
    (encHeader ⟨VERSION_MAJOR, VERSION_MINOR, .texture ⟨t.width, t.height, t.format, 0⟩⟩)
    t.data

/-- The offset table built by `write_texture_array`: each key is paired with
the cumulative length of the preceding blobs. -/
def mkEntries : List (List Nat) → List (List Nat) → Nat → List HeaderEntry
  | k :: ks, b :: bs, off => ⟨k, off⟩ :: mkEntries ks bs (off + b.length)
  | _, _, _ => []

/-- `write_texture_array`: fails (an error `Result`, modelled `none`) when
the key and blob counts differ; otherwise assembles the header with
cumulative offsets and the concatenated payload. -/
def writeTextureArray (ta : TextureArrayData) : Option (List Nat) :=
  if ta.keys.length ≠ ta.data.length then none
  else
    some (writeAssetBytes
      (encHeader ⟨VERSION_MAJOR, VERSION_MINOR,
        .textureArray ⟨ta.size, ta.format, mkEntries ta.keys ta.data 0⟩⟩)
      ta.data.flatten)

/-! ### Round-trip laws of the stand-in header codec -/

theorem decNat_encNat (n : Nat) (t : List Nat) : decNat (encNat n ++ t) = some (n, t) := by
  induction n with
  | zero => simp [encNat, decNat]
  | succ n ih =>
      have he : encNat (n + 1) ++ t = 1 :: (encNat n ++ t) := by
        simp [encNat, List.replicate_succ]
      rw [he]
      simp [decNat, ih]

theorem decNats_encSeq (xs : List Nat) (t : List Nat) :
    decNats xs.length (encSeq encNat xs ++ t) = some (xs, t) := by
  induction xs with
  | nil => simp [encSeq, decNats]
  | cons x xs ih =>
      have he : encSeq encNat (x :: xs) ++ t = encNat x ++ (encSeq encNat xs ++ t) := by
        simp [encSeq]
      simp only [List.length_cons, decNats, he, decNat_encNat, ih]

theorem decBytes_encBytes (s : List Nat) (t : List Nat) :
    decBytes (encBytes s ++ t) = some (s, t) := by
  have he : encBytes s ++ t = encNat s.length ++ (encSeq encNat s ++ t) := by
    simp [encBytes]
  simp only [decBytes, he, decNat_encNat, decNats_encSeq]

theorem decOptBytes_encOptBytes (o : Option (List Nat)) (t : List Nat) :
    decOptBytes (encOptBytes o ++ t) = some (o, t) := by
  cases o with
  | none => simp [encOptBytes, decOptBytes]
  | some s => simp [encOptBytes, decOptBytes, decBytes_encBytes]

theorem decEntry_encEntry (e : HeaderEntry) (t : List Nat) :
    decEntry (encEntry e ++ t) = some (e, t) := by
  have he : encEntry e ++ t = encBytes e.key ++ (encNat e.offset ++ t) := by
    simp [encEntry]
  simp only [decEntry, he, decBytes_encBytes, decNat_encNat]

theorem decEntriesN_encSeq (es : List HeaderEntry) (t : List Nat) :
    decEntriesN es.length (encSeq encEntry es ++ t) = some (es, t) := by
  induction es with
  | nil => simp [encSeq, decEntriesN]
  | cons e es ih =>
      have he : encSeq encEntry (e :: es) ++ t = encEntry e ++ (encSeq encEntry es ++ t) := by
        simp [encSeq]
      simp only [List.length_cons, decEntriesN, he, decEntry_encEntry, ih]

theorem decEntries_encEntries (es : List HeaderEntry) (t : List Nat) :
    decEntries (encEntries es ++ t) = some (es, t) := by
  have he : encEntries es ++ t = encNat es.length ++ (encSeq encEntry es ++ t) := by
    simp [encEntries]
  simp only [decEntries, he, decNat_encNat, decEntriesN_encSeq]

theorem decType_encType (ct : HeaderType) (t : List Nat) :
    decType (encType ct ++ t) = some (ct, t) := by
  cases ct with
  | texture tx =>
      have he : encType (.texture tx) ++ t =
          0 :: (encNat tx.width ++ (encNat tx.height ++ (encOptBytes tx.format ++
            (encNat tx.offset ++ t)))) := by
        simp [encType]
      rw [he]
      simp only [decType, decNat_encNat, decOptBytes_encOptBytes]
  | textureArray ta =>
      have he : encType (.textureArray ta) ++ t =
          1 :: (encNat ta.size ++ (encOptBytes ta.format ++ (encEntries ta.data ++ t))) := by
        simp [encType]
      rw [he]
      simp only [decType, decNat_encNat, decOptBytes_encOptBytes, decEntries_encEntries]
  | shader s =>
      have he : encType (.shader s) ++ t = 2 :: (encNat s.offset ++ t) := by
        simp [encType]
      rw [he]
      simp [decType, decNat_encNat]
  | gltf g =>
      have he : encType (.gltf g) ++ t = 3 :: (encNat g.offset ++ t) := by
        simp [encType]
      rw [he]
      simp [decType, decNat_encNat]

theorem decHeader_encHeader (h : BaseHeader) : decHeader (encHeader h) = some h := by
  have he : encHeader h = encNat h.major ++ (encNat h.minor ++ (encType h.ctype ++ [])) := by
    simp [encHeader]
  rw [he]
  simp only [decHeader, decNat_encNat, decType_encType]
  rfl

/-! ### Byte-level facts about the assembled container -/

theorem writeAssetBytes_length (H B : List Nat) :
    (writeAssetBytes H B).length = 8 + H.length + B.length := by
  simp [writeAssetBytes, toLE8]
  omega

theorem writeAssetBytes_take8 (H B : List Nat) :
    (writeAssetBytes H B).take 8 = toLE8 H.length := by
  unfold writeAssetBytes
  rw [List.append_assoc, List.take_left' (toLE8_length H.length)]

theorem writeAssetBytes_header_slice (H B : List Nat) :
    ((writeAssetBytes H B).drop 8).take H.length = H := by
  unfold writeAssetBytes
  rw [List.append_assoc, List.drop_left' (toLE8_length H.length),
    List.take_left' rfl]

theorem writeAssetBytes_payload (H B : List Nat) :
    (writeAssetBytes H B).drop (8 + H.length) = B := by
  unfold writeAssetBytes
  refine List.drop_left' ?_
  simp [toLE8]
  omega

/-- Decoding a container assembled from a Texture header (any version pair,
offset 0) and payload `B` recovers the header fields and exactly `B`.  The
hypothesis says the container's header end — the 8-byte prefix plus the
serialized header — fits in `usize`, which is exactly what the program's
`header_end = 8 + size as usize` computation presumes; it holds for every
header the program can hold in memory. -/
theorem loadAsset_texture_aux (maj mnr w hgt : Nat) (f : Option (List Nat)) (B : List Nat)
    (hl : 8 + (encHeader ⟨maj, mnr, .texture ⟨w, hgt, f, 0⟩⟩).length < 2 ^ 64) :
    loadAssetBytes decHeader
      (writeAssetBytes (encHeader ⟨maj, mnr, .texture ⟨w, hgt, f, 0⟩⟩) B) =
      .ok (.texture ⟨w, hgt, f, B⟩) := by
  set H := encHeader ⟨maj, mnr, HeaderType.texture ⟨w, hgt, f, 0⟩⟩ with hH
  set D := writeAssetBytes H B with hD
  have hlen : D.length = 8 + H.length + B.length := writeAssetBytes_length H B
  have hsize : fromLE8 (D.take 8) = H.length := by
    rw [hD, writeAssetBytes_take8]
    exact fromLE8_toLE8 (by omega)
  have h8 : ¬ D.length < 8 := by omega
  have hhe : ¬ D.length < 8 + fromLE8 (D.take 8) := by rw [hsize]; omega
  have hslice : (D.drop 8).take (fromLE8 (D.take 8)) = H := by
    rw [hsize, hD]
    exact writeAssetBytes_header_slice H B
  have hsf : sliceFrom D (usizeAdd (8 + fromLE8 (D.take 8)) 0) = some B := by
    unfold sliceFrom
    rw [hsize]
    rw [usizeAdd_eq_of_lt (by omega)]
    rw [if_pos (by omega)]
    rw [Nat.add_zero, hD, writeAssetBytes_payload]
  unfold loadAssetBytes
  rw [if_neg h8, if_neg hhe, hslice, hH, decHeader_encHeader]
  dsimp only
  rw [hsf]

/-- Slicing the concatenated payload back along the cumulative offsets of
`mkEntries` recovers exactly the original blobs, the last blob extending to
the end of `data`. -/
theorem sliceEntries_mkEntries :
    ∀ (blobs keys : List (List Nat)) (off he : Nat) (data : List Nat),
      keys.length = blobs.length →
      data.length = he + off + blobs.flatten.length →
      data.drop (he + off) = blobs.flatten →
      sliceEntries data he (mkEntries keys blobs off) = some blobs := by
  intro blobs
  induction blobs with
  | nil =>
      intro keys off he data hk hlen hdrop
      cases keys with
      | nil => simp [mkEntries, sliceEntries]
      | cons k ks => simp at hk
  | cons b bs ih =>
      intro keys off he data hk hlen hdrop
      cases keys with
      | nil => simp at hk
      | cons k ks =>
          have hk' : ks.length = bs.length := by simpa using hk
          cases bs with
          | nil =>
              cases ks with
              | cons k2 ks2 => simp at hk'
              | nil =>
                  have hb : ([b] : List (List Nat)).flatten = b := by simp
                  rw [hb] at hlen hdrop
                  have hcond : he + off ≤ data.length ∧ data.length ≤ data.length := by
                    omega
                  have htk : data.length - (he + off) = b.length := by omega
                  simp only [mkEntries, sliceEntries, sliceRange, if_pos hcond, hdrop,
                    htk, List.take_length, Option.map_some']
          | cons b2 bs2 =>
              cases ks with
              | nil => simp at hk'
              | cons k2 ks2 =>
                  have hflat : ((b :: b2 :: bs2) : List (List Nat)).flatten
                      = b ++ (b2 :: bs2 : List (List Nat)).flatten := by simp
                  rw [hflat] at hlen hdrop
                  have hlenb : data.length
                      = he + off + (b.length + (b2 :: bs2 : List (List Nat)).flatten.length) := by
                    rw [hlen, List.length_append]
                  have hcond : he + off ≤ he + (off + b.length) ∧
                      he + (off + b.length) ≤ data.length := by omega
                  have hdrop2 : data.drop (he + (off + b.length))
                      = (b2 :: bs2 : List (List Nat)).flatten := by
                    have h1 : he + (off + b.length) = (he + off) + b.length := by omega
                    rw [h1, ← List.drop_drop, hdrop, List.drop_left]
                  have hval : (data.drop (he + off)).take (he + (off + b.length) - (he + off))
                      = b := by
                    rw [hdrop]
                    have h2 : he + (off + b.length) - (he + off) = b.length := by omega
                    rw [h2, List.take_left]
                  have hrec := ih (k2 :: ks2) (off + b.length) he data (by simpa using hk')
                    (by omega) hdrop2
                  simp only [mkEntries] at hrec ⊢
                  simp only [sliceEntries, sliceRange, if_pos hcond, hval, hrec]

/-- The keys recorded by `mkEntries` are the original keys, in order. -/
theorem mkEntries_map_key :
    ∀ (keys blobs : List (List Nat)) (off : Nat), keys.length = blobs.length →
      (mkEntries keys blobs off).map HeaderEntry.key = keys := by
  intro keys
  induction keys with
  | nil => intro blobs off h; simp [mkEntries]
  | cons k ks ih =>
      intro blobs off h
      cases blobs with
      | nil => simp at h
      | cons b bs => simp [mkEntries, ih bs _ (by simpa using h)]

/-- Decoding a container assembled from a TextureArray header with
cumulative offsets and the concatenated payload recovers the original keys
and blobs. -/
theorem loadAsset_texture_array_aux (sz : Nat) (f : Option (List Nat))
    (keys blobs : List (List Nat))
    (hk : keys.length = blobs.length)
    (hl : (encHeader ⟨VERSION_MAJOR, VERSION_MINOR,
        .textureArray ⟨sz, f, mkEntries keys blobs 0⟩⟩).length < 2 ^ 64) :
    loadAssetBytes decHeader
      (writeAssetBytes (encHeader ⟨VERSION_MAJOR, VERSION_MINOR,
        .textureArray ⟨sz, f, mkEntries keys blobs 0⟩⟩) blobs.flatten) =
      .ok (.textureArray ⟨sz, f, keys, blobs⟩) := by
  set H := encHeader ⟨VERSION_MAJOR, VERSION_MINOR,
    HeaderType.textureArray ⟨sz, f, mkEntries keys blobs 0⟩⟩ with hH
  set D := writeAssetBytes H blobs.flatten with hD
  have hlen : D.length = 8 + H.length + blobs.flatten.length := writeAssetBytes_length H _
  have hsize : fromLE8 (D.take 8) = H.length := by
    rw [hD, writeAssetBytes_take8]
    exact fromLE8_toLE8 hl
  have h8 : ¬ D.length < 8 := by omega
  have hhe : ¬ D.length < 8 + fromLE8 (D.take 8) := by rw [hsize]; omega
  have hslice : (D.drop 8).take (fromLE8 (D.take 8)) = H := by
    rw [hsize, hD]
    exact writeAssetBytes_header_slice H _
  have hse : sliceEntries D (8 + fromLE8 (D.take 8)) (mkEntries keys blobs 0) = some blobs := by
    rw [hsize]
    refine sliceEntries_mkEntries blobs keys 0 (8 + H.length) D hk (by omega) ?_
    rw [Nat.add_zero, hD]
    exact writeAssetBytes_payload H _
  unfold loadAssetBytes
  rw [if_neg h8, if_neg hhe, hslice, hH, decHeader_encHeader]
  dsimp only
  rw [hse]
  dsimp only
  rw [mkEntries_map_key keys blobs 0 hk]

/-- C4: for every width, height, format and payload byte sequence, writing a
Texture container via `write_texture` and reading the produced bytes back via
`load_asset` yields a Texture asset with the same width, height, format and
payload bytes exactly equal to the input.  The hypothesis bounds the
container's header end — the 8-byte prefix plus the serialized header — by
`u64`, which the length prefix and the reader's `header_end` arithmetic
presume; it holds for every header the program can hold in memory. -/
theorem texture_roundtrip (w hgt : Nat) (f : Option (List Nat)) (B : List Nat)
    (hl : 8 + (encHeader ⟨VERSION_MAJOR, VERSION_MINOR,
        .texture ⟨w, hgt, f, 0⟩⟩).length < 2 ^ 64) :
    loadAssetBytes decHeader (writeTexture ⟨w, hgt, f, B⟩) =
      .ok (.texture ⟨w, hgt, f, B⟩) :=
  loadAsset_texture_aux VERSION_MAJOR VERSION_MINOR w hgt f B hl

/-- C4 witness: a concrete Texture round-trip (format "png" as UTF-8
bytes). -/
theorem texture_roundtrip_witness :
    loadAssetBytes decHeader (writeTexture ⟨2, 3, some [112, 110, 103], [9, 9, 9]⟩) =
      .ok (.texture ⟨2, 3, some [112, 110, 103], [9, 9, 9]⟩) :=
  texture_roundtrip 2 3 (some [112, 110, 103]) [9, 9, 9] (by decide)

/-- C5: packing any list of (key, blob) pairs with equal-size blobs as a
TextureArray (offsets computed by cumulative summation of the preceding blob
lengths) and reading the container back yields the same keys and blobs in the
original order, the last blob extending exactly to the end of the payload
region. -/
theorem texture_array_roundtrip (sz s : Nat) (f : Option (List Nat))
    (keys blobs : List (List Nat)) (d : List Nat)
    (hk : keys.length = blobs.length)
    (hsz : ∀ b ∈ blobs, b.length = s)
    (hl : (encHeader ⟨VERSION_MAJOR, VERSION_MINOR,
        .textureArray ⟨sz, f, mkEntries keys blobs 0⟩⟩).length < 2 ^ 64)
    (hw : writeTextureArray ⟨sz, f, keys, blobs⟩ = some d) :
    loadAssetBytes decHeader d = .ok (.textureArray ⟨sz, f, keys, blobs⟩) := by
  unfold writeTextureArray at hw
  rw [if_neg (fun hne => hne hk)] at hw
  rw [Option.some_inj] at hw
  subst hw
  exact loadAsset_texture_array_aux sz f keys blobs hk hl

/-- Keys of the concrete C5 round-trip ("+x" and "-x" as UTF-8 bytes). -/
def c5Keys : List (List Nat) := [[43, 120], [45, 120]]

/-- Equal-size blobs of the concrete C5 round-trip. -/
def c5Blobs : List (List Nat) := [[1, 2], [3, 4]]

/-- The container bytes produced by `write_texture_array` for the C5
witness. -/
def c5Data : List Nat := (writeTextureArray ⟨6, none, c5Keys, c5Blobs⟩).getD []

/-- C5 witness: a concrete TextureArray round-trip. -/
theorem texture_array_roundtrip_witness :
    loadAssetBytes decHeader c5Data =
      .ok (.textureArray ⟨6, none, c5Keys, c5Blobs⟩) :=
  texture_array_roundtrip 6 2 none c5Keys c5Blobs c5Data
    (by decide) (by decide) (by decide) (by decide)

/-- A container whose header declares major version 2 (the reader's constant
is 1). -/
def c6Data : List Nat := writeAssetBytes (encHeader ⟨2, 0, .texture ⟨1, 1, none, 0⟩⟩) [7, 8]

/-- C6 counterexample: a container with major version 2 ≠ `VERSION_MAJOR` is
decoded normally by `load_asset` instead of being rejected — the reader
never inspects the version fields and no unsupported-version error path
exists. -/
theorem version_rejection_counterexample :
    (2 : Nat) ≠ VERSION_MAJOR ∧
    loadAssetBytes decHeader c6Data = .ok (.texture ⟨1, 1, none, [7, 8]⟩) := by
  decide

/-- C6 (amended): `load_asset` never inspects the header's version fields; a
container declaring ANY (major, minor) pair — in particular a major version
different from the writer's constant `VERSION_MAJOR = 1` — is decoded
normally, not rejected with an unsupported-version error.  The hypothesis
bounds the container's header end by `u64`, as for the round-trip. -/
theorem version_ignored_amended (maj mnr w hgt : Nat) (f : Option (List Nat)) (B : List Nat)
    (hl : 8 + (encHeader ⟨maj, mnr, .texture ⟨w, hgt, f, 0⟩⟩).length < 2 ^ 64) :
    loadAssetBytes decHeader
      (writeAssetBytes (encHeader ⟨maj, mnr, .texture ⟨w, hgt, f, 0⟩⟩) B) =
      .ok (.texture ⟨w, hgt, f, B⟩) :=
  loadAsset_texture_aux maj mnr w hgt f B hl

/-- C6 witness: a major-7 container decodes normally. -/
theorem version_ignored_amended_witness :
    loadAssetBytes decHeader
      (writeAssetBytes (encHeader ⟨7, 9, .texture ⟨1, 2, none, 0⟩⟩) [4]) =
      .ok (.texture ⟨1, 2, none, [4]⟩) :=
  version_ignored_amended 7 9 1 2 none [4] (by decide)

/-- C2 counterexample: on empty input, `load_asset` panics at the prefix
read `&data[..8]` — it does not return a malformed-container error (the
only error return of the decoding path is the header parse failure). -/
theorem truncated_container_counterexample :
    loadAssetBytes decHeader [] = .panicked ∧
    loadAssetBytes decHeader [] ≠ .jsonError := by
  decide

/-- C2 (amended): an 8-byte length prefix or declared header length that
runs past the end of the available bytes makes `load_asset` PANIC via
out-of-bounds slice indexing, for every header decoder; the Texture payload
offset is added to the header end with 64-bit wrap-around (release
semantics of `header_end + offset as usize`) and `load_asset` panics
exactly when the WRAPPED index runs past the end — an offset large enough
to wrap the index back into range is accepted silently and the payload is
sliced from the wrapped position.  A header parse failure, by contrast, is
returned as an error (`Error::JsonError`); no malformed-container error
exists for out-of-range lengths or offsets. -/
theorem load_asset_bounds_amended :
    (∀ (dec : List Nat → Option BaseHeader) (data : List Nat),
        data.length < 8 → loadAssetBytes dec data = .panicked) ∧
    (∀ (dec : List Nat → Option BaseHeader) (data : List Nat),
        data.length < 8 + fromLE8 (data.take 8) → loadAssetBytes dec data = .panicked) ∧
    (∀ (dec : List Nat → Option BaseHeader) (data : List Nat) (hdr : BaseHeader)
        (tm : HeaderTexture),
        ¬ data.length < 8 + fromLE8 (data.take 8) →
        dec ((data.drop 8).take (fromLE8 (data.take 8))) = some hdr →
        hdr.ctype = .texture tm →
        data.length < usizeAdd (8 + fromLE8 (data.take 8)) tm.offset →
        loadAssetBytes dec data = .panicked) ∧
    (∀ (dec : List Nat → Option BaseHeader) (data : List Nat) (hdr : BaseHeader)
        (tm : HeaderTexture),
        ¬ data.length < 8 + fromLE8 (data.take 8) →
        dec ((data.drop 8).take (fromLE8 (data.take 8))) = some hdr →
        hdr.ctype = .texture tm →
        usizeAdd (8 + fromLE8 (data.take 8)) tm.offset ≤ data.length →
        loadAssetBytes dec data = .ok (.texture ⟨tm.width, tm.height, tm.format,
          data.drop (usizeAdd (8 + fromLE8 (data.take 8)) tm.offset)⟩)) ∧
    (∀ (dec : List Nat → Option BaseHeader) (data : List Nat),
        ¬ data.length < 8 + fromLE8 (data.take 8) →
        dec ((data.drop 8).take (fromLE8 (data.take 8))) = none →
        loadAssetBytes dec data = .jsonError) := by
  refine ⟨?_, ?_, ?_, ?_, ?_⟩
  · intro dec data h
    unfold loadAssetBytes
    rw [if_pos h]
  · intro dec data h
    unfold loadAssetBytes
    by_cases h8 : data.length < 8
    · rw [if_pos h8]
    · rw [if_neg h8, if_pos h]
  · intro dec data hdr tm hge hdec hct hoff
    have h8 : ¬ data.length < 8 := by omega
    unfold loadAssetBytes
    rw [if_neg h8, if_neg hge, hdec]
    dsimp only
    rw [hct]
    dsimp only
    unfold sliceFrom
    rw [if_neg (by omega)]
  · intro dec data hdr tm hge hdec hct hoff
    have h8 : ¬ data.length < 8 := by omega
    unfold loadAssetBytes
    rw [if_neg h8, if_neg hge, hdec]
    dsimp only
    rw [hct]
    dsimp only
    unfold sliceFrom
    rw [if_pos hoff]
  · intro dec data hge hdec
    have h8 : ¬ data.length < 8 := by omega
    unfold loadAssetBytes
    rw [if_neg h8, if_neg hge, hdec]

/-- Truncated input for the C2 witness (shorter than the prefix). -/
def c2Short : List Nat := [1, 2, 3]

/-- Input whose declared header length (2^56) runs past the end. -/
def c2BadLen : List Nat := [0, 0, 0, 0, 0, 0, 0, 1]

/-- A well-formed header whose Texture offset (99) puts the payload index
past the end without wrapping. -/
def c2BadOff : List Nat := writeAssetBytes (encHeader ⟨1, 0, .texture ⟨1, 1, none, 99⟩⟩) []

/-- Eight zero bytes: a zero-length header slice that fails to parse. -/
def c2BadHdr : List Nat := toLE8 0

/-- A header decoder standing for `serde_json` on a header that declares the
Texture offset `2 ^ 64 - 8`: the unary stand-in codec cannot spell that
value as a concrete list, but `serde_json` parses it from ordinary JSON
text, so this fixes the parser's answer on the witness input directly. -/
def c2WrapDec : List Nat → Option BaseHeader :=
  fun _ => some ⟨1, 0, .texture ⟨1, 1, none, 2 ^ 64 - 8⟩⟩

/-- Nine bytes: an 8-byte zero length prefix and one payload byte.  With the
declared offset `2 ^ 64 - 8` the payload index wraps to 0. -/
def c2WrapData : List Nat := [0, 0, 0, 0, 0, 0, 0, 0, 5]

/-- C2 witness: the five amended branches on concrete inputs — three panics,
one silent wrap-around acceptance (the whole container comes back as the
payload), one parse-error return. -/
theorem load_asset_bounds_amended_witness :
    loadAssetBytes decHeader c2Short = .panicked ∧
    loadAssetBytes decHeader c2BadLen = .panicked ∧
    loadAssetBytes decHeader c2BadOff = .panicked ∧
    loadAssetBytes c2WrapDec c2WrapData = .ok (.texture ⟨1, 1, none, c2WrapData⟩) ∧
    loadAssetBytes decHeader c2BadHdr = .jsonError :=
  ⟨load_asset_bounds_amended.1 decHeader c2Short (by decide),
   load_asset_bounds_amended.2.1 decHeader c2BadLen (by decide),
   load_asset_bounds_amended.2.2.1 decHeader c2BadOff ⟨1, 0, .texture ⟨1, 1, none, 99⟩⟩
     ⟨1, 1, none, 99⟩ (by decide) (by decide) (by decide) (by decide),
   (by
     have h := load_asset_bounds_amended.2.2.2.1 c2WrapDec c2WrapData
       ⟨1, 0, .texture ⟨1, 1, none, 2 ^ 64 - 8⟩⟩ ⟨1, 1, none, 2 ^ 64 - 8⟩
       (by decide) (by decide) (by decide) (by decide)
     rw [h]
     decide),
   load_asset_bounds_amended.2.2.2.2 decHeader c2BadHdr (by decide) (by decide)⟩

/-! ### The identifier registry and path index of `src/utils.rs` / `src/lib.rs` -/

/-- From `struct GuidGenerator`: the set of already-issued `u32` values
(`HashSet<u32>`, modelled as a list). -/
structure GuidGenerator where
  used : List Nat
deriving DecidableEq, Repr

/-- `GuidGenerator::generate`, with the `rand::random::<u32>()` draws passed
explicitly as a stream: draw, reduce to `u32` range, reject values already
issued, record and return the first fresh one.  An exhausted stream (`none`)
models the non-termination of the rejection loop on a stream of
collisions. -/
def GuidGenerator.generate : GuidGenerator → List Nat → Option (Nat × GuidGenerator × List Nat)
  | _, [] => none
  | g, r :: rs =>
      if r % 2 ^ 32 ∈ g.used then GuidGenerator.generate g rs
      else some (r % 2 ^ 32, ⟨r % 2 ^ 32 :: g.used⟩, rs)

theorem generate_fresh :
    ∀ (g : GuidGenerator) (s : List Nat) (v : Nat) (g2 : GuidGenerator) (s2 : List Nat),
      g.generate s = some (v, g2, s2) → v ∉ g.used ∧ g2.used = v :: g.used := by
  intro g s
  induction s with
  | nil => intro v g2 s2 h; simp [GuidGenerator.generate] at h
  | cons r rs ih =>
      intro v g2 s2 h
      by_cases hv : r % 2 ^ 32 ∈ g.used
      · rw [GuidGenerator.generate, if_pos hv] at h
        exact ih v g2 s2 h
      · rw [GuidGenerator.generate, if_neg hv] at h
        rw [Option.some_inj] at h
        rcases h with ⟨rfl, rfl, rfl⟩
        exact ⟨hv, rfl⟩

/-- The loader state relevant to interning: the generator, the path index
`paths : HashMap<String, Guid>` and the byte cache keyed by identifier, as in
`struct What`. -/
structure WhatState where
  gen : GuidGenerator
  paths : List (String × Nat)
  cache : LfuCache Nat
deriving DecidableEq

/-- The path-interning step of `load_file` (src/lib.rs lines 135-151):
return the existing identifier for the path, or generate a fresh one and
record the mapping.  (The source re-looks-up after inserting; the
`Error::Unknown` fallback of that re-lookup is unreachable and not
modelled.) -/
def intern (st : WhatState) (stream : List Nat) (path : String) :
    Option (Nat × WhatState × List Nat) :=
  match lookupKV st.paths path with
  | some g => some (g, st, stream)
  | none =>
      match st.gen.generate stream with
      | none => none
      | some (g, gen2, s2) =>
          some (g, { st with gen := gen2, paths := insertKV st.paths path g }, s2)

/-- The auxiliary-blob loop of `load_file` (src/lib.rs lines 160-166): for
each (name, bytes) pair returned by the backend, generate a FRESH identifier,
unconditionally overwrite the path-index entry for that name, and insert the
bytes into the cache under the fresh identifier. -/
def processAux (priority : Nat) :
    List (String × List Nat) → WhatState → List Nat → Option (WhatState × List Nat)
  | [], st, stream => some (st, stream)
  | (key, data) :: rest, st, stream =>
      match st.gen.generate stream with
      | none => none
      | some (guid, gen2, s2) =>
          match st.cache.insert guid data priority with
          | none => none
          | some cache2 =>
              processAux priority rest
                ⟨gen2, insertKV st.paths key guid, cache2⟩ s2

/-- Well-formedness of the loader state: every identifier recorded in the
path index was issued by the generator, and path-index entries have pairwise
distinct keys and pairwise distinct identifiers (every mapping is created
from a fresh `generate` result, as `load_file` does). -/
def pathsWF (st : WhatState) : Prop :=
  (∀ pr ∈ st.paths, pr.2 ∈ st.gen.used) ∧
    st.paths.Pairwise (fun a b => a.1 ≠ b.1 ∧ a.2 ≠ b.2)

theorem pairwise_lookup_inj :
    ∀ {l : List (String × Nat)},
      l.Pairwise (fun a b => a.1 ≠ b.1 ∧ a.2 ≠ b.2) →
      ∀ {p q : String} {g : Nat},
        lookupKV l p = some g → lookupKV l q = some g → p = q := by
  intro l
  induction l with
  | nil => intro hp p q g hP; simp [lookupKV] at hP
  | cons hd tl ih =>
      intro hp p q g hP hQ
      obtain ⟨k0, v0⟩ := hd
      rw [List.pairwise_cons] at hp
      obtain ⟨hhd, htl⟩ := hp
      by_cases hpk : p = k0
      · subst hpk
        rw [lookupKV, if_pos rfl] at hP
        rw [Option.some_inj] at hP
        by_cases hqk : q = p
        · exact hqk.symm
        · rw [lookupKV, if_neg hqk] at hQ
          have hmem := lookupKV_mem hQ
          have := (hhd (q, g) hmem).2
          rw [hP] at this
          exact absurd rfl this
      · rw [lookupKV, if_neg hpk] at hP
        by_cases hqk : q = k0
        · subst hqk
          rw [lookupKV, if_pos rfl] at hQ
          rw [Option.some_inj] at hQ
          have hmem := lookupKV_mem hP
          have := (hhd (p, g) hmem).2
          rw [hQ] at this
          exact absurd rfl this
        · rw [lookupKV, if_neg hqk] at hQ
          exact ih htl hP hQ

/-- Inversion of `intern`: either the path was present and the state is
unchanged, or it was absent and a fresh identifier was recorded. -/
theorem intern_inv {st : WhatState} {stream : List Nat} {path : String}
    {g1 : Nat} {st1 : WhatState} {s1 : List Nat}
    (h : intern st stream path = some (g1, st1, s1)) :
    (lookupKV st.paths path = some g1 ∧ st1 = st ∧ s1 = stream) ∨
    (lookupKV st.paths path = none ∧
      ∃ gen2, st.gen.generate stream = some (g1, gen2, s1) ∧
        st1 = { st with gen := gen2, paths := insertKV st.paths path g1 }) := by
  unfold intern at h
  cases hl : lookupKV st.paths path with
  | some g =>
      rw [hl] at h
      rw [Option.some_inj] at h
      rcases h with ⟨rfl, rfl, rfl⟩
      exact Or.inl ⟨rfl, rfl, rfl⟩
  | none =>
      rw [hl] at h
      cases hg : st.gen.generate stream with
      | none => rw [hg] at h; simp at h
      | some t =>
          obtain ⟨g, gen2, s2⟩ := t
          rw [hg] at h
          rw [Option.some_inj] at h
          rcases h with ⟨rfl, rfl, rfl⟩
          exact Or.inr ⟨rfl, gen2, rfl, rfl⟩

/-- C8: in a well-formed state, interning a path twice yields the same
identifier both times, and interning two distinct paths yields distinct
identifiers — the generator rejection-samples against the monotonically
growing set of issued values, so a fresh identifier never collides with a
recorded one. -/
theorem intern_idempotent_and_injective (st : WhatState) (stream : List Nat)
    (p q : String) (g1 g2 : Nat) (st1 st2 : WhatState) (s1 s2 : List Nat)
    (hwf : pathsWF st)
    (h1 : intern st stream p = some (g1, st1, s1))
    (h2 : intern st1 s1 q = some (g2, st2, s2)) :
    (q = p → g2 = g1) ∧ (q ≠ p → g2 ≠ g1) := by
  rcases intern_inv h1 with ⟨hl1, rfl, rfl⟩ | ⟨hl1, gen2, hgen1, rfl⟩
  · rcases intern_inv h2 with ⟨hl2, rfl, rfl⟩ | ⟨hl2, gen3, hgen2, rfl⟩
    · constructor
      · intro hqp
        subst hqp
        rw [hl1] at hl2
        exact (Option.some_inj.mp hl2).symm
      · intro hne heq
        rw [heq] at hl2
        exact hne (pairwise_lookup_inj hwf.2 hl2 hl1)
    · constructor
      · intro hqp
        subst hqp
        rw [hl1] at hl2
        exact absurd hl2 (by simp)
      · intro hne heq
        have hfresh := generate_fresh _ _ _ _ _ hgen2
        have hmem := hwf.1 _ (lookupKV_mem hl1)
        rw [← heq] at hmem
        exact hfresh.1 hmem
  · have hfresh1 := generate_fresh _ _ _ _ _ hgen1
    rcases intern_inv h2 with ⟨hl2, rfl, rfl⟩ | ⟨hl2, gen3, hgen2, rfl⟩
    · constructor
      · intro hqp
        subst hqp
        rw [lookupKV_insertKV_self] at hl2
        exact (Option.some_inj.mp hl2).symm
      · intro hne heq
        rw [lookupKV_insertKV_ne _ _ _ _ hne] at hl2
        have hmem := hwf.1 _ (lookupKV_mem hl2)
        rw [heq] at hmem
        exact hfresh1.1 hmem
    · constructor
      · intro hqp
        subst hqp
        rw [lookupKV_insertKV_self] at hl2
        exact absurd hl2 (by simp)
      · intro hne heq
        have hfresh2 := generate_fresh _ _ _ _ _ hgen2
        have hni : g2 ∉ gen2.used := hfresh2.1
        rw [hfresh1.2, heq] at hni
        exact hni (List.mem_cons_self _ _)

/-- Fresh loader state for the C8 witness. -/
def c8State : WhatState := ⟨⟨[]⟩, [], LfuCache.new Nat 0⟩

/-- State after interning "a" (draw 3) in `c8State`. -/
def c8St1 : WhatState := ⟨⟨[3]⟩, [("a", 3)], LfuCache.new Nat 0⟩

/-- State after then interning "b" (draw 9). -/
def c8St2 : WhatState := ⟨⟨[9, 3]⟩, [("a", 3), ("b", 9)], LfuCache.new Nat 0⟩

/-- C8 witness: the statement evaluated on a concrete pair of interns. -/
theorem intern_idempotent_and_injective_witness :
    (("b" : String) = "a" → (9 : Nat) = 3) ∧ (("b" : String) ≠ "a" → (9 : Nat) ≠ 3) :=
  intern_idempotent_and_injective c8State [3, 9] "a" "b" 3 9 c8St1 c8St2 [9] []
    (by constructor <;> simp [c8State]) (by decide) (by decide)

/-- C10: processing an auxiliary blob named `p` generates a fresh identifier
and unconditionally overwrites the existing path-index mapping for `p`: the
path is remapped to a new identifier distinct from the old one, and
afterwards no path maps to the old identifier — bytes cached under it are
unreachable through the path index. -/
theorem aux_blob_overwrites_mapping (st : WhatState) (stream : List Nat) (prio : Nat)
    (p : String) (d : List Nat) (gOld : Nat) (st2 : WhatState) (s2 : List Nat)
    (hwf : pathsWF st)
    (hold : lookupKV st.paths p = some gOld)
    (h : processAux prio [(p, d)] st stream = some (st2, s2)) :
    ∃ gNew, lookupKV st2.paths p = some gNew ∧ gNew ≠ gOld ∧
      ∀ q : String, lookupKV st2.paths q ≠ some gOld := by
  cases hg : st.gen.generate stream with
  | none => simp [processAux, hg] at h
  | some t =>
      obtain ⟨gNew, gen2, s2'⟩ := t
      cases hc : st.cache.insert gNew d prio with
      | none => simp [processAux, hg, hc] at h
      | some cache2 =>
          simp only [processAux, hg, hc] at h
          rw [Option.some_inj] at h
          rcases h with ⟨rfl, rfl⟩
          have hfresh := generate_fresh _ _ _ _ _ hg
          have hmem : gOld ∈ st.gen.used := hwf.1 _ (lookupKV_mem hold)
          refine ⟨gNew, lookupKV_insertKV_self _ _ _, ?_, ?_⟩
          · intro heq
            rw [← heq] at hmem
            exact hfresh.1 hmem
          · intro q hq
            by_cases hqp : q = p
            · subst hqp
              rw [lookupKV_insertKV_self] at hq
              rw [Option.some_inj] at hq
              rw [← hq] at hmem
              exact hfresh.1 hmem
            · rw [lookupKV_insertKV_ne _ _ _ _ hqp] at hq
              exact hqp (pairwise_lookup_inj hwf.2 hq hold)

/-- Loader state for the C10 witness: path "a" interned to identifier 5. -/
def c10Pre : WhatState := ⟨⟨[5]⟩, [("a", 5)], LfuCache.new Nat 100⟩

/-- State after processing the auxiliary blob ("a", [1, 2]) in `c10Pre`:
the first draw 5 collides and is rejected, 7 is issued, and "a" is
remapped. -/
def c10St2 : WhatState :=
  ⟨⟨[7, 5]⟩, [("a", 7)], ⟨26, 100, [(7, ([1, 2], 0, 0))], [⟨7, 0, 0⟩]⟩⟩

/-- C10 witness: the statement evaluated on a concrete auxiliary blob. -/
theorem aux_blob_overwrites_mapping_witness :
    ∃ gNew, lookupKV c10St2.paths "a" = some gNew ∧ gNew ≠ 5 ∧
      ∀ q : String, lookupKV c10St2.paths q ≠ some 5 :=
  aux_blob_overwrites_mapping c10Pre [5, 7] 0 "a" [1, 2] 5 c10St2 []
    (by constructor <;> simp [c10Pre]) (by decide) (by decide)

end WhatV
